import Mathlib

/-!
Shallow embedding of `scheduling_optimization/__main__.py`.

The program builds a CP-SAT model assigning P participants to G games over
R rounds, with auxiliary round-matchup and game-matchup boolean variables,
enumerates feasible solutions through a callback that decodes each solution
and computes statistics, and stops after a configured number of solutions.

The module constants `_NUM_PARTICIPANTS = 50`, `_NUM_GAMES = 5`,
`_NUM_ROUNDS = 4`, `_SOLUTION_LIMIT = 1`, `_MAX_REPEAT_MATCHUPS = 2` are
modelled as the fields of a `Config` record (the shipped configuration is
`shippedConfig` below); every function that reads a module constant in the
source takes the corresponding field here.
-/

namespace SchedulingOpt

/-- Configuration constants of the program (module-level constants in the
source: lines 12-16 of `__main__.py`). -/
structure Config where
  numParticipants : Nat
  numGames : Nat
  numRounds : Nat
  maxRepeatMatchups : Nat
  solutionLimit : Nat
deriving DecidableEq, Repr

/-- The shipped configuration: P=50, G=5, R=4, max_repeat_matchups=2,
solution_limit=1. -/
def shippedConfig : Config :=
  { numParticipants := 50
    numGames := 5
    numRounds := 4
    maxRepeatMatchups := 2
    solutionLimit := 1 }

/-- A valuation of all boolean variables of the CP-SAT model:
`alloc p g r` is `A(p,g,r)` (line 150-155), `roundMatchup r p1 p2` is
`M_round(r,p1,p2)` (lines 170-174), `gameMatchup r g p1 p2` is
`M_game(r,g,p1,p2)` (lines 182-189).  Only the indices within the
configured ranges are constrained. -/
structure Valuation where
  alloc : Nat → Nat → Nat → Bool
  roundMatchup : Nat → Nat → Nat → Bool
  gameMatchup : Nat → Nat → Nat → Nat → Bool

/-- Constraint of lines 159-161: `model.AddExactlyOne(allocations[(p, g, r)]
for g in range(_NUM_GAMES))` for every round `r` and participant `p` —
exactly one game per participant per round. -/
def exactlyOneGamePerRound (cfg : Config) (v : Valuation) : Prop :=
  ∀ r < cfg.numRounds, ∀ p < cfg.numParticipants,
    (List.range cfg.numGames).countP (fun g => v.alloc p g r) = 1

/-- Constraint of lines 165-168: `model.Add(sum(num_game_part) ==
participants_per_game)` for every round and game, where
`participants_per_game = int(P / G)` (line 145, modelled as Nat division). -/
def gameSizeConstraint (cfg : Config) (v : Valuation) : Prop :=
  ∀ r < cfg.numRounds, ∀ g < cfg.numGames,
    ((List.range cfg.numParticipants).map (fun p => (v.alloc p g r).toNat)).sum
      = cfg.numParticipants / cfg.numGames

/-- Constraint of lines 176-180: for every unordered pair `p1 < p2`,
`sum(round_matchups[(r, p1, p2)] for r) <= _MAX_REPEAT_MATCHUPS`. -/
def pairRepeatLimit (cfg : Config) (v : Valuation) : Prop :=
  ∀ p2 < cfg.numParticipants, ∀ p1 < p2,
    ((List.range cfg.numRounds).map (fun r => (v.roundMatchup r p1 p2).toNat)).sum
      ≤ cfg.maxRepeatMatchups

/-- Constraint of lines 191-196: `model.AddImplication(
round_game_matchups[(r, g, p1, p2)], round_matchups[(r, p1, p2)])` for
every pair, game and round: `M_game(r,g,p1,p2) ⇒ M_round(r,p1,p2)`. -/
def gameMatchupImpliesRoundMatchup (cfg : Config) (v : Valuation) : Prop :=
  ∀ p2 < cfg.numParticipants, ∀ p1 < p2, ∀ g < cfg.numGames, ∀ r < cfg.numRounds,
    v.gameMatchup r g p1 p2 = true → v.roundMatchup r p1 p2 = true

/-- Constraint of lines 198-203: `model.AddImplication(allocations[(p1, g, r)],
round_game_matchups[(r, g, p1, p2)]).OnlyEnforceIf(allocations[(p2, g, r)])`:
the implication `A(p1,g,r) ⇒ M_game(r,g,p1,p2)` is enforced only when the
literal `A(p2,g,r)` is true. -/
def allocImpliesGameMatchup (cfg : Config) (v : Valuation) : Prop :=
  ∀ r < cfg.numRounds, ∀ g < cfg.numGames,
    ∀ p2 < cfg.numParticipants, ∀ p1 < p2,
      v.alloc p2 g r = true → v.alloc p1 g r = true →
        v.gameMatchup r g p1 p2 = true

/-- A valuation is feasible when it satisfies every constraint added to the
model by `main` (lines 159-203). -/
def feasible (cfg : Config) (v : Valuation) : Prop :=
  exactlyOneGamePerRound cfg v ∧ gameSizeConstraint cfg v ∧
    pairRepeatLimit cfg v ∧ gameMatchupImpliesRoundMatchup cfg v ∧
      allocImpliesGameMatchup cfg v

set_option synthInstance.maxSize 1024 in
instance (cfg : Config) (v : Valuation) : Decidable (feasible cfg v) := by
  unfold feasible exactlyOneGamePerRound gameSizeConstraint pairRepeatLimit
    gameMatchupImpliesRoundMatchup allocImpliesGameMatchup
  infer_instance

/-- Semantics of `AddImplication(a1, mg).OnlyEnforceIf(a2)` on one triple of
boolean values (line 201-203): the implication `a1 ⇒ mg` is enforced only
when the enforcement literal `a2` holds. -/
def onlyEnforceIfSem (a1 mg a2 : Bool) : Prop :=
  a2 = true → a1 = true → mg = true

/-- Modelled from the spec: the two-premise conjunction-antecedent
implication `(A(p1,g,r) ∧ A(p2,g,r)) ⇒ M_game(r,g,p1,p2)` of §4.1 step 8,
on one triple of boolean values. -/
def conjAntecedentSem (a1 mg a2 : Bool) : Prop :=
  a1 = true ∧ a2 = true → mg = true

/-- Modelled from the spec: the constraint family of §4.1 step 8 stated with
a conjunction antecedent, over a whole valuation. -/
def specStep8 (cfg : Config) (v : Valuation) : Prop :=
  ∀ r < cfg.numRounds, ∀ g < cfg.numGames,
    ∀ p2 < cfg.numParticipants, ∀ p1 < p2,
      v.alloc p1 g r = true ∧ v.alloc p2 g r = true →
        v.gameMatchup r g p1 p2 = true

/-- Marker for the fatal configuration failure of lines 145-146
(`assert participants_per_game * _NUM_GAMES == _NUM_PARTICIPANTS`); the
specification calls it a `ConfigurationError`. -/
inductive ConfigurationError where
  | mk : ConfigurationError
deriving DecidableEq, Repr

/-- Lines 145-146 of `main`: compute `participants_per_game = int(P / G)`
(Python float division truncated, modelled as Nat division) and assert that
`participants_per_game * G == P`; the failed assertion is modelled as
`Except.error`. -/
def checkParticipantsPerGame (numParticipants numGames : Nat) :
    Except ConfigurationError Nat :=
  let participantsPerGame := numParticipants / numGames
  if participantsPerGame * numGames = numParticipants then
    Except.ok participantsPerGame
  else
    Except.error ConfigurationError.mk

/-- The model object produced by `main` lines 144-203: the configuration
together with the validated `participants_per_game`; its constraint
semantics is `feasible`. -/
structure BuiltModel where
  cfg : Config
  participantsPerGame : Nat
deriving DecidableEq, Repr

/-- Model construction (`main`, lines 144-203): the divisibility check runs
first and aborts construction on failure; otherwise the full variable and
constraint set (whose semantics is `feasible cfg`) is built. -/
def buildModel (cfg : Config) : Except ConfigurationError BuiltModel := do
  let ppg ← checkParticipantsPerGame cfg.numParticipants cfg.numGames
  pure { cfg := cfg, participantsPerGame := ppg }

/-- Constraint semantics of a built model. -/
def BuiltModel.semantics (m : BuiltModel) : Valuation → Prop :=
  feasible m.cfg

/-- Solution decoding of `on_solution_callback`, lines 99-113: for each round
`r` in increasing order, for each game `g` in increasing order, the list of
participants `p` (scanned in increasing order over `range(P)`) whose
allocation variable is true in the valuation. -/
def decodeSolution (cfg : Config) (v : Valuation) : List (List (List Nat)) :=
  (List.range cfg.numRounds).map fun r =>
    (List.range cfg.numGames).map fun g =>
      (List.range cfg.numParticipants).filter fun p => v.alloc p g r

/-- Inner loop of `count_repeated_matchups`, lines 27-29: the number of games
of the flattened schedule that contain both `p1` and `p2`. -/
def pairGameCount (sol : List (List (List Nat))) (p1 p2 : Nat) : Nat :=
  sol.flatten.countP fun game => decide (p1 ∈ game) && decide (p2 ∈ game)

/-- Embedding of `itertools.combinations(range(n), 2)`: all pairs
`(p1, p2)` with `p1 < p2 < n`, in lexicographic order. -/
def combinations2 (n : Nat) : List (Nat × Nat) :=
  (List.range n).flatMap fun p1 =>
    ((List.range n).filter fun p2 => decide (p1 < p2)).map fun p2 => (p1, p2)

/-- Lines 19-31, `count_repeated_matchups`: for every unordered pair of the
`numParticipants` model participants count the games containing both, and
return `sum(val - 1 for val in counts.values() if val > 1)`.  The source
reads the module constant `_NUM_PARTICIPANTS`; here it is a parameter. -/
def countRepeatedMatchups (numParticipants : Nat)
    (sol : List (List (List Nat))) : Nat :=
  ((combinations2 numParticipants).map fun q =>
      if 1 < pairGameCount sol q.1 q.2 then pairGameCount sol q.1 q.2 - 1
      else 0).sum

/-- Lines 39-44 of `get_avg_meetups`: the list `meetups[p]` collected for
participant `p` — for each game of the flattened schedule containing `p`,
all its members other than `p`, in scan order. -/
def meetupList (sol : List (List (List Nat))) (p : Nat) : List Nat :=
  sol.flatten.flatMap fun theGame =>
    if p ∈ theGame then theGame.filter (fun q => q != p) else []

/-- Lines 34-59, `get_avg_meetups`: deduplicate each participant's meetup
list (`set(val)` on line 46), take its size, and return the `numpy.mean` of
the sizes — their sum divided by their number, as a rational.  The source
reads the module constant `_NUM_PARTICIPANTS`; here it is a parameter. -/
def getAvgMeetups (numParticipants : Nat)
    (sol : List (List (List Nat))) : ℚ :=
  let sizes := (List.range numParticipants).map fun p =>
    (meetupList sol p).dedup.length
  (sizes.sum : ℚ) / (sizes.length : ℚ)

/-- Lines 66-71 of `build_solution_c_arr_template`: for participant `p`, the
game indices (per-round `enumerate` positions) of the games containing `p`,
in round order. -/
def participantGameIndices (sol : List (List (List Nat))) (p : Nat) : List Nat :=
  sol.flatMap fun theRound =>
    theRound.enum.filterMap fun ig => if p ∈ ig.2 then some ig.1 else none

/-- Line 76-78: one literal-array entry, a placeholder tag of `tagLen`
copies of the letter F paired with the comma-separated game indices. -/
def cArrEntry (tagLen : Nat) (games : List Nat) : String :=
  "\x7b\"" ++ String.mk (List.replicate tagLen 'F') ++ "\", \x7b" ++
    String.intercalate ", " (games.map toString) ++ "\x7d\x7d"

/-- Lines 62-83, `build_solution_c_arr_template`.  The `assert len(games) ==
_NUM_ROUNDS` inside the participant loop and the final `assert len(entries)
== _NUM_PARTICIPANTS` are modelled as guards returning `none`: an assertion
failure anywhere aborts the function with no result, so checking all
participants up front is observationally the same in this model.  The
source reads the module constants; here they are parameters, and the
default `tag_len=12` is passed explicitly. -/
def buildSolutionCArrTemplate (numParticipants numRounds tagLen : Nat)
    (sol : List (List (List Nat))) : Option String :=
  if (List.range numParticipants).all
      (fun p => (participantGameIndices sol p).length == numRounds) then
    let entries := (List.range numParticipants).map fun p =>
      cArrEntry tagLen (participantGameIndices sol p)
    if entries.length == numParticipants then
      some (String.intercalate ", \n" entries)
    else
      none
  else
    none

/-- Mutable state of `PartialSolutionPrinter`: the monotonic solution
counter (line 93). -/
structure PrinterState where
  solutionCount : Nat
deriving DecidableEq, Repr

/-- Everything one invocation of `on_solution_callback` (lines 96-138)
produces: the updated state, the decoded schedule, the three computed
artifacts that are logged, and whether `StopSearch` was requested. -/
structure CallbackOutput where
  state : PrinterState
  schedule : List (List (List Nat))
  avgMeetups : ℚ
  cArrTemplate : Option String
  repeatedMatchups : Nat
  stopRequested : Bool

/-- Lines 96-138, `on_solution_callback`: unconditionally increment the
counter, decode the valuation into a schedule, compute the logged
statistics and exports, and request a search stop when the incremented
counter has reached the limit.  There is no early-return guard: every
invocation performs all of this. -/
def onSolutionCallback (cfg : Config) (st : PrinterState) (v : Valuation) :
    CallbackOutput :=
  let newCount := st.solutionCount + 1
  let sol := decodeSolution cfg v
  { state := { solutionCount := newCount }
    schedule := sol
    avgMeetups := getAvgMeetups cfg.numParticipants sol
    cArrTemplate := buildSolutionCArrTemplate cfg.numParticipants cfg.numRounds 12 sol
    repeatedMatchups := countRepeatedMatchups cfg.numParticipants sol
    stopRequested := decide (cfg.solutionLimit ≤ newCount) }

/-- Rounds in which `p1` and `p2` share a game, read directly off the
allocation variables of a valuation. -/
def sharedRoundsCount (cfg : Config) (v : Valuation) (p1 p2 : Nat) : Nat :=
  (List.range cfg.numRounds).countP fun r =>
    (List.range cfg.numGames).any fun g => v.alloc p1 g r && v.alloc p2 g r

/-- A tiny configuration (P=4, G=2, R=1, max_repeat_matchups=2,
solution_limit=1) used to exhibit concrete feasible instances. -/
def smallConfig : Config :=
  { numParticipants := 4
    numGames := 2
    numRounds := 1
    maxRepeatMatchups := 2
    solutionLimit := 1 }

/-- A concrete valuation that is feasible for `smallConfig`: participants
0 and 1 play game 0, participants 2 and 3 play game 1, and both matchup
variable families are identically true. -/
def smallValuation : Valuation :=
  { alloc := fun p g _ => if p < 2 then g == 0 else g == 1
    roundMatchup := fun _ _ _ => true
    gameMatchup := fun _ _ _ _ => true }

lemma sum_map_toNat_countP {α : Type} (f : α → Bool) :
    ∀ l : List α, (l.map fun x => (f x).toNat).sum = l.countP f
  | [] => by simp
  | a :: l => by
    simp only [List.map_cons, List.sum_cons, List.countP_cons,
      sum_map_toNat_countP f l]
    cases f a <;> simp [Nat.add_comm]

lemma range_map_sum {M : Type*} [AddCommMonoid M] (f : ℕ → M) :
    ∀ n : ℕ, ((List.range n).map f).sum = ∑ i ∈ Finset.range n, f i
  | 0 => by simp
  | n + 1 => by
    simp [List.range_succ, Finset.sum_range_succ, range_map_sum f n]

lemma mem_combinations2 {n p1 p2 : Nat} :
    (p1, p2) ∈ combinations2 n ↔ p1 < p2 ∧ p2 < n := by
  simp only [combinations2, List.mem_flatMap, List.mem_map, List.mem_filter,
    List.mem_range, decide_eq_true_eq, Prod.mk.injEq]
  constructor
  · rintro ⟨a, ha, b, ⟨hb, hab⟩, rfl, rfl⟩
    exact ⟨hab, hb⟩
  · rintro ⟨h12, h2⟩
    exact ⟨p1, lt_trans h12 h2, p2, ⟨h2, h12⟩, rfl, rfl⟩

lemma combinations2_nodup (n : Nat) : (combinations2 n).Nodup := by
  unfold combinations2
  rw [List.nodup_flatMap]
  constructor
  · intro p1 _
    exact ((List.nodup_range n).filter _).map
      (fun a b h => by simpa using congrArg Prod.snd h)
  · have : ∀ a b : Nat, a ≠ b →
        List.Disjoint
          (((List.range n).filter fun p2 => decide (a < p2)).map fun p2 => (a, p2))
          (((List.range n).filter fun p2 => decide (b < p2)).map fun p2 => (b, p2)) := by
      intro a b hab x hxa hxb
      obtain ⟨pa, _, rfl⟩ := List.mem_map.mp hxa
      obtain ⟨pb, _, h⟩ := List.mem_map.mp hxb
      exact hab (congrArg Prod.fst h).symm
    exact (List.pairwise_lt_range n).imp (fun h => this _ _ (Nat.ne_of_lt h))

lemma combinations2_toFinset (n : Nat) :
    (combinations2 n).toFinset
      = (Finset.range n ×ˢ Finset.range n).filter fun q => q.1 < q.2 := by
  ext q
  rcases q with ⟨p1, p2⟩
  simp only [List.mem_toFinset, mem_combinations2, Finset.mem_filter,
    Finset.mem_product, Finset.mem_range]
  constructor
  · rintro ⟨h12, h2⟩
    exact ⟨⟨lt_trans h12 h2, h2⟩, h12⟩
  · rintro ⟨⟨_, h2⟩, h12⟩
    exact ⟨h12, h2⟩

/-- C2: the constraint added by `AddImplication(A(p1,g,r),
M_game(r,g,p1,p2)).OnlyEnforceIf(A(p2,g,r))` is logically equivalent, over
all boolean valuations of the three variables involved, to the two-premise
conjunction-antecedent implication `(A(p1,g,r) ∧ A(p2,g,r)) ⇒
M_game(r,g,p1,p2)` of §4.1 step 8 — both on a single triple of booleans
and for the whole constraint family over any valuation. -/
theorem C2_onlyEnforceIf_equiv_conjAntecedent :
    (∀ a1 mg a2 : Bool, onlyEnforceIfSem a1 mg a2 ↔ conjAntecedentSem a1 mg a2)
    ∧ ∀ cfg v, allocImpliesGameMatchup cfg v ↔ specStep8 cfg v := by
  constructor
  · intro a1 mg a2
    constructor
    · rintro h ⟨h1, h2⟩
      exact h h2 h1
    · intro h h2 h1
      exact h ⟨h1, h2⟩
  · intro cfg v
    constructor
    · rintro h r hr g hg p2 hp2 p1 hp1 ⟨h1, h2⟩
      exact h r hr g hg p2 hp2 p1 hp1 h2 h1
    · intro h r hr g hg p2 hp2 p1 hp1 h2 h1
      exact h r hr g hg p2 hp2 p1 hp1 ⟨h1, h2⟩

/-- C6: for positive `G` (the domain where the Python division is defined),
model construction succeeds, yielding the model with `participants_per_game
= P / G`, exactly when `G` divides `P`; otherwise it fails with a
`ConfigurationError` before any model is constructed. -/
theorem C6_divisibility_check (cfg : Config) (_hG : 0 < cfg.numGames) :
    buildModel cfg =
      if cfg.numGames ∣ cfg.numParticipants then
        Except.ok ⟨cfg, cfg.numParticipants / cfg.numGames⟩
      else
        Except.error ConfigurationError.mk := by
  unfold buildModel checkParticipantsPerGame
  by_cases h : cfg.numGames ∣ cfg.numParticipants
  · rw [if_pos h, if_pos (Nat.div_mul_cancel h)]
    rfl
  · have hne : ¬(cfg.numParticipants / cfg.numGames * cfg.numGames
        = cfg.numParticipants) := by
      intro heq
      exact h ⟨cfg.numParticipants / cfg.numGames,
        heq.symm.trans (Nat.mul_comm _ _)⟩
    rw [if_neg h, if_neg hne]
    rfl

/-- Witness for C6 at the shipped configuration: 5 divides 50, so the model
is built with 10 participants per game. -/
theorem C6_divisibility_check_witness :
    buildModel shippedConfig = Except.ok ⟨shippedConfig, 10⟩ := by
  rw [C6_divisibility_check shippedConfig (by decide)]
  rfl

lemma mem_meetupList {sol : List (List (List Nat))} {p q : Nat} :
    q ∈ meetupList sol p ↔ q ≠ p ∧ ∃ game ∈ sol.flatten, p ∈ game ∧ q ∈ game := by
  unfold meetupList
  simp only [List.mem_flatMap]
  constructor
  · rintro ⟨game, hgame, hq⟩
    by_cases hp : p ∈ game
    · rw [if_pos hp, List.mem_filter] at hq
      exact ⟨by simpa using hq.2, game, hgame, hp, hq.1⟩
    · rw [if_neg hp] at hq
      exact absurd hq (List.not_mem_nil q)
  · rintro ⟨hqp, game, hgame, hpg, hqg⟩
    refine ⟨game, hgame, ?_⟩
    rw [if_pos hpg, List.mem_filter]
    exact ⟨hqg, by simpa using hqp⟩

/-- C7: `count_repeated_matchups` returns the sum, over every unordered
pair of the model's participants, of `count - 1` for pairs whose shared-game
count exceeds 1 (pairs meeting 0 or 1 times contribute nothing), and the
total is 0 exactly when every unordered pair shares a game at most once
across the whole schedule, independent of `max_repeat_matchups`. -/
theorem C7_count_repeated_matchups (numParticipants : Nat)
    (sol : List (List (List Nat))) :
    countRepeatedMatchups numParticipants sol
      = ∑ q ∈ (Finset.range numParticipants ×ˢ
          Finset.range numParticipants).filter (fun q => q.1 < q.2),
          (if 1 < pairGameCount sol q.1 q.2 then pairGameCount sol q.1 q.2 - 1
           else 0)
    ∧ (countRepeatedMatchups numParticipants sol = 0 ↔
        ∀ p1 p2, p1 < p2 → p2 < numParticipants →
          pairGameCount sol p1 p2 ≤ 1) := by
  constructor
  · rw [← combinations2_toFinset,
      List.sum_toFinset _ (combinations2_nodup numParticipants)]
    rfl
  · unfold countRepeatedMatchups
    rw [List.sum_eq_zero_iff]
    constructor
    · intro h p1 p2 h12 h2
      have hz := h _
        (List.mem_map.mpr ⟨(p1, p2), mem_combinations2.mpr ⟨h12, h2⟩, rfl⟩)
      dsimp only at hz
      by_cases hval : 1 < pairGameCount sol p1 p2
      · rw [if_pos hval] at hz
        omega
      · omega
    · intro h x hx
      obtain ⟨q, hq, rfl⟩ := List.mem_map.mp hx
      rcases q with ⟨p1, p2⟩
      obtain ⟨h12, h2⟩ := mem_combinations2.mp hq
      have := h p1 p2 h12 h2
      dsimp only
      rw [if_neg (by omega)]

/-- C8: `get_avg_meetups` is the average, over the model's participants, of
the size of the deduplicated set of other participants sharing at least one
game with them; membership in that set is independent of how many games the
pair shares, so repeated matchups do not increase the result. -/
theorem C8_get_avg_meetups (numParticipants : Nat)
    (sol : List (List (List Nat))) :
    getAvgMeetups numParticipants sol
      = (∑ p ∈ Finset.range numParticipants,
          ((meetupList sol p).toFinset.card : ℚ)) / (numParticipants : ℚ)
    ∧ ∀ p q, q ∈ (meetupList sol p).toFinset
        ↔ q ≠ p ∧ ∃ game ∈ sol.flatten, p ∈ game ∧ q ∈ game := by
  constructor
  · simp only [getAvgMeetups, List.length_map, List.length_range]
    have hsum : ((List.range numParticipants).map fun p =>
        (meetupList sol p).dedup.length).sum
        = ∑ p ∈ Finset.range numParticipants, (meetupList sol p).toFinset.card := by
      rw [range_map_sum]
      exact Finset.sum_congr rfl fun p _ => (List.card_toFinset _).symm
    rw [hsum, Nat.cast_sum]
  · intro p q
    rw [List.mem_toFinset]
    exact mem_meetupList

lemma decodeSolution_getD (cfg : Config) (v : Valuation) {r : Nat}
    (hr : r < cfg.numRounds) :
    (decodeSolution cfg v).getD r []
      = (List.range cfg.numGames).map fun g =>
          (List.range cfg.numParticipants).filter fun p => v.alloc p g r := by
  unfold decodeSolution
  rw [List.getD_eq_getElem _ _ (by simpa using hr), List.getElem_map,
    List.getElem_range]

lemma decodeSolution_getD_getD (cfg : Config) (v : Valuation) {r g : Nat}
    (hr : r < cfg.numRounds) (hg : g < cfg.numGames) :
    ((decodeSolution cfg v).getD r []).getD g []
      = (List.range cfg.numParticipants).filter fun p => v.alloc p g r := by
  rw [decodeSolution_getD cfg v hr,
    List.getD_eq_getElem _ _ (by simpa using hg), List.getElem_map,
    List.getElem_range]

/-- C1: in every feasible solution of the built model, every unordered pair
of participants is assigned to the same game in at most
`max_repeat_matchups` rounds, via the chain from the allocation variables
through the game-matchup and round-matchup variables to the per-pair sum
bound. -/
theorem C1_pair_repeat_bound (cfg : Config) (v : Valuation)
    (hf : feasible cfg v) :
    ∀ p2 < cfg.numParticipants, ∀ p1 < p2,
      sharedRoundsCount cfg v p1 p2 ≤ cfg.maxRepeatMatchups := by
  intro p2 hp2 p1 hp1
  have hmono : sharedRoundsCount cfg v p1 p2
      ≤ (List.range cfg.numRounds).countP fun r => v.roundMatchup r p1 p2 := by
    unfold sharedRoundsCount
    apply List.countP_mono_left
    intro r hrmem hshared
    rw [List.mem_range] at hrmem
    rw [List.any_eq_true] at hshared
    obtain ⟨g, hgmem, hboth⟩ := hshared
    rw [List.mem_range] at hgmem
    rw [Bool.and_eq_true] at hboth
    have hmg := hf.2.2.2.2 r hrmem g hgmem p2 hp2 p1 hp1 hboth.2 hboth.1
    exact hf.2.2.2.1 p2 hp2 p1 hp1 g hgmem r hrmem hmg
  have hsum := hf.2.2.1 p2 hp2 p1 hp1
  rw [sum_map_toNat_countP] at hsum
  exact le_trans hmono hsum

/-- Witness for C1: a concrete feasible valuation of the small
configuration, at the pair (0, 1). -/
theorem C1_pair_repeat_bound_witness :
    sharedRoundsCount smallConfig smallValuation 0 1 ≤ 2 :=
  C1_pair_repeat_bound smallConfig smallValuation (by decide) 1 (by decide)
    0 (by decide)

/-- C4: in every feasible solution, each participant is allocated exactly
one game per round, and equivalently each participant appears in exactly
one game of each decoded round. -/
theorem C4_one_game_per_round (cfg : Config) (v : Valuation)
    (hf : feasible cfg v) :
    ∀ r < cfg.numRounds, ∀ p < cfg.numParticipants,
      (List.range cfg.numGames).countP (fun g => v.alloc p g r) = 1
      ∧ ((decodeSolution cfg v).getD r []).countP
          (fun game => decide (p ∈ game)) = 1 := by
  intro r hr p hp
  have h1 := hf.1 r hr p hp
  refine ⟨h1, ?_⟩
  rw [decodeSolution_getD cfg v hr, List.countP_map, ← h1]
  apply List.countP_congr
  intro g _
  simp only [Function.comp_apply, decide_eq_true_eq, List.mem_filter,
    List.mem_range]
  constructor
  · rintro ⟨_, ha⟩
    exact ha
  · intro ha
    exact ⟨hp, ha⟩

/-- Witness for C4: participant 0 plays exactly one game in round 0 of the
decoded small solution. -/
theorem C4_one_game_per_round_witness :
    ((decodeSolution smallConfig smallValuation).getD 0 []).countP
      (fun game => decide (0 ∈ game)) = 1 :=
  (C4_one_game_per_round smallConfig smallValuation (by decide) 0 (by decide)
    0 (by decide)).2

/-- C5: in every feasible solution, each game of each round has exactly
`participants_per_game = P / G` allocated participants, and each decoded
game contains exactly that many participants. -/
theorem C5_game_size (cfg : Config) (v : Valuation) (hf : feasible cfg v) :
    ∀ r < cfg.numRounds, ∀ g < cfg.numGames,
      (List.range cfg.numParticipants).countP (fun p => v.alloc p g r)
        = cfg.numParticipants / cfg.numGames
      ∧ (((decodeSolution cfg v).getD r []).getD g []).length
        = cfg.numParticipants / cfg.numGames := by
  intro r hr g hg
  have hsum := hf.2.1 r hr g hg
  rw [sum_map_toNat_countP] at hsum
  refine ⟨hsum, ?_⟩
  rw [decodeSolution_getD_getD cfg v hr hg, ← List.countP_eq_length_filter]
  exact hsum

/-- Witness for C5: game 0 of round 0 of the decoded small solution has
exactly 4 / 2 = 2 participants. -/
theorem C5_game_size_witness :
    (((decodeSolution smallConfig smallValuation).getD 0 []).getD 0 []).length
      = 2 :=
  (C5_game_size smallConfig smallValuation (by decide) 0 (by decide)
    0 (by decide)).2

/-- C10: the decoded schedule is a deterministic, canonically ordered
function of the valuation — it has one entry per round in increasing round
index, `G` games per round in increasing game index, the entry at position
`(r, g)` is exactly the increasing scan of `range(P)` kept where
`A(p,g,r)` is true, and participant identifiers inside each game are
strictly increasing. -/
theorem C10_canonical_order (cfg : Config) (v : Valuation) :
    (decodeSolution cfg v).length = cfg.numRounds
    ∧ ∀ r < cfg.numRounds,
        ((decodeSolution cfg v).getD r []).length = cfg.numGames
        ∧ ∀ g < cfg.numGames,
            ((decodeSolution cfg v).getD r []).getD g []
              = (List.range cfg.numParticipants).filter (fun p => v.alloc p g r)
            ∧ List.Pairwise (fun a b => a < b)
                (((decodeSolution cfg v).getD r []).getD g [])
            ∧ ∀ p, p ∈ ((decodeSolution cfg v).getD r []).getD g []
                ↔ p < cfg.numParticipants ∧ v.alloc p g r = true := by
  refine ⟨by simp [decodeSolution], ?_⟩
  intro r hr
  refine ⟨by rw [decodeSolution_getD cfg v hr]; simp, ?_⟩
  intro g hg
  rw [decodeSolution_getD_getD cfg v hr hg]
  refine ⟨rfl, ?_, ?_⟩
  · exact List.Pairwise.sublist (List.filter_sublist _)
      (List.pairwise_lt_range _)
  · intro p
    simp [List.mem_filter, List.mem_range]

/-- Witness for C10: in the decoded small solution, game 0 of round 0 lists
its participants in strictly increasing order. -/
theorem C10_canonical_order_witness :
    List.Pairwise (fun a b => a < b)
      (((decodeSolution smallConfig smallValuation).getD 0 []).getD 0 []) :=
  (((C10_canonical_order smallConfig smallValuation).2 0 (by decide)).2
    0 (by decide)).2.1

lemma length_filterMap_enumFrom (p : Nat) :
    ∀ (k : Nat) (l : List (List Nat)),
      ((List.enumFrom k l).filterMap fun ig =>
          if p ∈ ig.2 then some ig.1 else none).length
        = l.countP fun game => decide (p ∈ game)
  | _, [] => by simp
  | k, g :: l => by
    by_cases hp : p ∈ g
    · simp [List.enumFrom, List.filterMap_cons, hp, List.countP_cons,
        length_filterMap_enumFrom p (k + 1) l]
    · simp [List.enumFrom, List.filterMap_cons, hp, List.countP_cons,
        length_filterMap_enumFrom p (k + 1) l]

lemma participantGameIndices_length (sol : List (List (List Nat))) (p : Nat) :
    (participantGameIndices sol p).length
      = (sol.map fun rd => rd.countP fun game => decide (p ∈ game)).sum := by
  unfold participantGameIndices
  rw [List.length_flatMap]
  apply congrArg List.sum
  apply List.map_congr_left
  intro rd _
  exact length_filterMap_enumFrom p 0 rd

/-- C9: the literal-array export succeeds exactly when every participant's
game-index list has exactly `R` entries (otherwise the length assertion
aborts it with no result), and every schedule in which each participant
appears in exactly one game per round of its `R` rounds satisfies that
length invariant. -/
theorem C9_c_arr_template (numParticipants numRounds tagLen : Nat)
    (sol : List (List (List Nat))) :
    ((buildSolutionCArrTemplate numParticipants numRounds tagLen sol).isSome
        = true
      ↔ ∀ p < numParticipants,
          (participantGameIndices sol p).length = numRounds)
    ∧ (sol.length = numRounds →
        (∀ p < numParticipants, ∀ rd ∈ sol,
          rd.countP (fun game => decide (p ∈ game)) = 1) →
        ∀ p < numParticipants,
          (participantGameIndices sol p).length = numRounds) := by
  constructor
  · unfold buildSolutionCArrTemplate
    by_cases hall : (List.range numParticipants).all
        (fun p => (participantGameIndices sol p).length == numRounds) = true
    · rw [if_pos hall, if_pos (by simp)]
      simp only [Option.isSome_some, true_iff]
      intro p hp
      exact beq_iff_eq.mp
        (List.all_eq_true.mp hall p (List.mem_range.mpr hp))
    · rw [if_neg hall]
      simp only [Option.isSome_none, Bool.false_eq_true, false_iff]
      intro hforall
      apply hall
      rw [List.all_eq_true]
      intro p hpmem
      exact beq_iff_eq.mpr (hforall p (List.mem_range.mp hpmem))
  · intro hR hcount p hp
    rw [participantGameIndices_length]
    have hmap : (sol.map fun rd => rd.countP fun game => decide (p ∈ game))
        = sol.map fun _ => 1 :=
      List.map_congr_left fun rd hrd => hcount p hp rd hrd
    rw [hmap]
    simp [List.map_const', hR]

/-- Witness for C9: the export succeeds on a concrete one-round schedule in
which each of the two participants plays exactly one game. -/
theorem C9_c_arr_template_witness :
    (buildSolutionCArrTemplate 2 1 12 [[[0], [1]]]).isSome = true :=
  (C9_c_arr_template 2 1 12 [[[0], [1]]]).1.mpr
    ((C9_c_arr_template 2 1 12 [[[0], [1]]]).2 (by decide) (by decide))

/-- C3 counterexample: invoked with the counter already at the configured
limit (the enumerator's STOPPED state for `smallConfig`), the callback
still increments the counter to 2 and still decodes the solution — so the
claimed no-processing behavior is false on the code. -/
theorem C3_counterexample :
    (onSolutionCallback smallConfig ⟨1⟩ smallValuation).state.solutionCount = 2
    ∧ (onSolutionCallback smallConfig ⟨1⟩ smallValuation).schedule
        = [[[0, 1], [2, 3]]] := by
  constructor
  · rfl
  · decide

/-- C3 (amended): `on_solution_callback` has no terminal-state guard — even
when the counter has already reached the limit, a subsequent invocation
increments the counter, decodes the solution, computes the statistics, and
(re-)requests the search stop. -/
theorem C3_no_terminal_guard (cfg : Config) (st : PrinterState) (v : Valuation)
    (h : cfg.solutionLimit ≤ st.solutionCount) :
    (onSolutionCallback cfg st v).state.solutionCount = st.solutionCount + 1
    ∧ (onSolutionCallback cfg st v).schedule = decodeSolution cfg v
    ∧ (onSolutionCallback cfg st v).repeatedMatchups
        = countRepeatedMatchups cfg.numParticipants (decodeSolution cfg v)
    ∧ (onSolutionCallback cfg st v).stopRequested = true := by
  refine ⟨rfl, rfl, rfl, ?_⟩
  simp only [onSolutionCallback, decide_eq_true_eq]
  omega

/-- Witness for C3 (amended): the extra invocation at the limit re-requests
the stop. -/
theorem C3_no_terminal_guard_witness :
    (onSolutionCallback smallConfig ⟨1⟩ smallValuation).stopRequested = true :=
  (C3_no_terminal_guard smallConfig ⟨1⟩ smallValuation (by decide)).2.2.2

end SchedulingOpt
